import Mathlib

/-!
Verification of the Attacca-Demo recording/emotion pipeline (src/app.py).

The core is `record_and_transcribe(duration_sec)`: it opens a raw input
stream, runs a consumer loop that, while `time.time() < end_time`, pops the
next audio chunk from the queue and feeds it to the Kaldi recognizer
(`rec.AcceptWaveform`); accepted non-empty results are appended to
`transcript_parts`, non-empty partial hypotheses update a status
placeholder.  After the stream closes, `rec.FinalResult()` may contribute a
closing segment, and the transcript is `" ".join(transcript_parts)`.
Downstream, the button handler classifies a non-empty transcript with the
emotion pipeline, takes the max-score entry (`max(scores, key=...)`), and
maps the label through `EMOTION_TO_CHARACTER.get(mood, neutral)`.

The audio chunks themselves never influence control flow: each fed chunk is
modelled by the recognizer response it induces (`FeedResult`), the wall
clock by the boolean outcome of each `time.time() < end_time` check, and
the device-open call by a boolean.
-/

/-- Outcome of one `rec.AcceptWaveform(data)` call on a dequeued chunk:
`accepted t` means `AcceptWaveform` returned true and `json.loads(rec.Result())['text'] = t`;
`notAccepted p` means it returned false and `PartialResult()` carried the hypothesis `p`;
`raised` means the decoder raised an internal exception. -/
inductive FeedResult where
  | accepted (text : String)
  | notAccepted (hypText : String)
  | raised
deriving DecidableEq

/-- Errors a session can surface: the device failing to open
(`sd.RawInputStream` raising), or an exception escaping the feed loop. -/
inductive SessionError where
  | deviceUnavailable
  | decoderError
deriving DecidableEq

instance {ε α : Type} [DecidableEq ε] [DecidableEq α] : DecidableEq (Except ε α)
  | .ok a, .ok b =>
    if h : a = b then .isTrue (by rw [h]) else .isFalse (by intro hc; cases hc; exact h rfl)
  | .ok _, .error _ => .isFalse (by intro hc; cases hc)
  | .error _, .ok _ => .isFalse (by intro hc; cases hc)
  | .error e, .error f =>
    if h : e = f then .isTrue (by rw [h]) else .isFalse (by intro hc; cases hc; exact h rfl)

/-- What one run of `record_and_transcribe` did: whether the microphone
stream was acquired, whether it was released, and the returned transcript
(or the exception that propagated out). -/
structure SessionResult where
  acquired : Bool
  released : Bool
  result : Except SessionError String
deriving DecidableEq

/-- The non-empty committed texts among a list of feed outcomes, in feed
order (the loop appends `res['text']` only when `AcceptWaveform` returned
true and the text is non-empty). -/
def committedTexts (fed : List FeedResult) : List String :=
  fed.filterMap fun r =>
    match r with
    | .accepted t => if t = "" then none else some t
    | _ => none

/-- The non-empty partial hypotheses among a list of feed outcomes, in feed
order (each one overwrites the status placeholder). -/
def progressTexts (fed : List FeedResult) : List String :=
  fed.filterMap fun r =>
    match r with
    | .notAccepted p => if p = "" then none else some p
    | _ => none

/-- Length of the longest prefix of `true`s: the number of consecutive
`time.time() < end_time` checks that pass before the deadline is first
observed. -/
def leadTrue : List Bool → Nat
  | true :: r => leadTrue r + 1
  | _ => 0

/-- No chunk in the list makes the decoder raise. -/
def noRaise (l : List FeedResult) : Prop :=
  ∀ r ∈ l, r ≠ FeedResult.raised

instance (l : List FeedResult) : Decidable (noRaise l) :=
  inferInstanceAs (Decidable (∀ r ∈ l, r ≠ FeedResult.raised))

/-- The consumer loop of `record_and_transcribe`: `checks` are the
successive outcomes of `time.time() < end_time`, `queue` holds the queued
chunks (each represented by the recognizer response it induces), `parts`
is `transcript_parts` and `progress` the sequence of status-placeholder
updates so far.  Each iteration first reads the clock; only when the
deadline has not passed does it dequeue and feed one chunk.  A `raised`
outcome propagates as an exception (`Except.error`).  The loop returns the
accumulated parts, the chunks still queued (discarded, never fed), and the
progress updates.  An exhausted `checks` or an empty queue ends the
modelled trace (`q.get()` would block waiting for the producer). -/
def consumeLoop : List Bool → List FeedResult → List String → List String →
    Except Unit (List String × List FeedResult × List String)
  | [], queue, parts, progress => .ok (parts, queue, progress)
  | check :: checks, queue, parts, progress =>
    if check then
      match queue with
      | [] => .ok (parts, [], progress)
      | r :: rest =>
        match r with
        | .raised => .error ()
        | .accepted t =>
          consumeLoop checks rest (if t = "" then parts else parts ++ [t]) progress
        | .notAccepted p =>
          consumeLoop checks rest parts (if p = "" then progress else progress ++ [p])
    else .ok (parts, queue, progress)

/-- The `with sd.RawInputStream(...)` block: the body runs, and the stream
is closed both on normal exit and while an exception unwinds.  Returns
(released, body outcome). -/
def withStream {α : Type} (body : Except Unit α) : Bool × Except Unit α :=
  match body with
  | .ok a => (true, .ok a)
  | .error e => (true, .error e)

/-- Python's `" ".join(parts)`. -/
def joinSpace : List String → String
  | [] => ""
  | [s] => s
  | s :: rest => s ++ " " ++ joinSpace rest

/-- The function `record_and_transcribe`, with its environment made explicit:
`deviceOpens` is whether `sd.RawInputStream` opens, `checks` the successive
deadline-check outcomes, `queue` the chunks the callback enqueues (as the
feed outcomes they induce), and `finalText` the `text` field of
`rec.FinalResult()`.  Mirrors src/app.py lines 70-91: on device failure
the exception propagates before any recording; inside the stream the
consumer loop runs; after the stream closes, a non-empty final result is
appended and the parts are space-joined. -/
def record_and_transcribe (deviceOpens : Bool) (checks : List Bool)
    (queue : List FeedResult) (finalText : String) : SessionResult :=
  if deviceOpens then
    let (released, body) := withStream (consumeLoop checks queue [] [])
    match body with
    | .error _ =>
      { acquired := true, released := released, result := .error .decoderError }
    | .ok (parts, _discarded, _progress) =>
      let allParts := if finalText = "" then parts else parts ++ [finalText]
      { acquired := true, released := released, result := .ok (joinSpace allParts) }
  else
    { acquired := false, released := false, result := .error .deviceUnavailable }

/-- One entry of the classifier's output: `{'label': ..., 'score': ...}`. -/
structure EmotionScore where
  label : String
  score : ℚ
deriving DecidableEq

/-- One comparison step of Python's `max`: the running best is replaced
only when the candidate's key is strictly larger. -/
def pymaxStep (best y : EmotionScore) : EmotionScore :=
  if best.score < y.score then y else best

/-- Python's `max(scores, key=lambda x: x['score'])`: scan left to right,
replacing the current best only on a strictly larger score (so ties keep
the earlier entry); on an empty list `max` raises (modelled as `none`). -/
def pymax (scores : List EmotionScore) : Option EmotionScore :=
  match scores with
  | [] => none
  | x :: xs => some (xs.foldl pymaxStep x)

/-- One value of `EMOTION_TO_CHARACTER` in src/app.py. -/
structure ActionRecord where
  name : String
  emoji : String
  color : String
  darker : String
  text : String
  image : String
deriving DecidableEq

def joyChar : ActionRecord :=
  { name := "Joy", emoji := "💛", color := "#FEE033", darker := "#998200",
    text := "#ffffff", image := "C:\\\\Users\\\\User\\\\Attacca_Final\\\\images\\\\joy.png" }

def sadnessChar : ActionRecord :=
  { name := "Sadness", emoji := "💙", color := "#4A90E2", darker := "#214a7a",
    text := "#ffffff", image := "C:\\\\Users\\\\User\\\\Attacca_Final\\\\images\\\\sadness.png" }

def angerChar : ActionRecord :=
  { name := "Anger", emoji := "🔴", color := "#E23E28", darker := "#8b1a0d",
    text := "#ffffff", image := "C:\\\\Users\\\\User\\\\Attacca_Final\\\\images\\\\anger.png" }

def fearChar : ActionRecord :=
  { name := "Fear", emoji := "🟣", color := "#A386D5", darker := "#5e438a",
    text := "#ffffff", image := "C:\\\\Users\\\\User\\\\Attacca_Final\\\\images\\\\fear.png" }

def surpriseChar : ActionRecord :=
  { name := "Surprise", emoji := "🩷", color := "#FF4DD8", darker := "#f71ccf",
    text := "#ffffff", image := "C:\\\\Users\\\\User\\\\Attacca_Final\\\\images\\\\surprise.png" }

def disgustChar : ActionRecord :=
  { name := "Disgust", emoji := "💚", color := "#76D672", darker := "#3a6d38",
    text := "#ffffff", image := "C:\\\\Users\\\\User\\\\Attacca_Final\\\\images\\\\disgust.png" }

def neutralChar : ActionRecord :=
  { name := "Ennui", emoji := "⚪", color := "#808080", darker := "#404040",
    text := "#ffffff", image := "C:\\\\Users\\\\User\\\\Attacca_Final\\\\images\\\\neutral.png" }

/-- The `EMOTION_TO_CHARACTER` dict, in insertion order. -/
def EMOTION_TO_CHARACTER : List (String × ActionRecord) :=
  [("joy", joyChar), ("sadness", sadnessChar), ("anger", angerChar),
   ("fear", fearChar), ("surprise", surpriseChar), ("disgust", disgustChar),
   ("neutral", neutralChar)]

/-- Dict lookup by key equality. -/
def lookupChar : List (String × ActionRecord) → String → Option ActionRecord
  | [], _ => none
  | (k, v) :: rest, mood => if mood = k then some v else lookupChar rest mood

/-- Python `EMOTION_TO_CHARACTER.get(mood, EMOTION_TO_CHARACTER["neutral"])`. -/
def characterFor (mood : String) : ActionRecord :=
  (lookupChar EMOTION_TO_CHARACTER mood).getD neutralChar

/-- What the `st.button("RECORD")` handler did after a session. -/
inductive HandlerOutcome where
  | sessionError (e : SessionError)
  | noAction
  | classifierEmpty
  | displayed (transcript : String) (mood : String) (char : ActionRecord) (confidence : ℚ)
deriving DecidableEq

/-- The `st.button("RECORD")` handler body (src/app.py lines 190-217): an
exception from the session propagates; an empty (falsy) transcript skips
everything; otherwise the classifier runs, `max` picks the best entry
(raising on an empty score list), and the mood is mapped and displayed. -/
def handleRecord (session : SessionResult)
    (classify : String → List EmotionScore) : HandlerOutcome :=
  match session.result with
  | .error e => .sessionError e
  | .ok transcript =>
    if transcript = "" then .noAction
    else
      match pymax (classify transcript) with
      | none => .classifierEmpty
      | some best => .displayed transcript best.label (characterFor best.label) best.score

/-- Whether the handler outcome involved a call to the emotion classifier. -/
def classifierInvoked : HandlerOutcome → Bool
  | .sessionError _ => false
  | .noAction => false
  | .classifierEmpty => true
  | .displayed _ _ _ _ => true

/-- Number of chunks the consumer loop feeds: one per passing deadline
check, stopping at the first failing check or when the queue runs out. -/
def fedCount (checks : List Bool) (queue : List FeedResult) : Nat :=
  min (leadTrue checks) queue.length

/-- No two consecutive characters of the list are both spaces. -/
def noTwoSpacesB : List Char → Bool
  | a :: b :: rest => !(a == ' ' && b == ' ') && noTwoSpacesB (b :: rest)
  | _ => true

/-- A character sequence with no two consecutive spaces that neither
starts nor ends with a space. -/
def cleanData (l : List Char) : Prop :=
  noTwoSpacesB l = true ∧ l.head? ≠ some ' ' ∧ l.getLast? ≠ some ' '

instance (l : List Char) : Decidable (cleanData l) :=
  inferInstanceAs (Decidable (noTwoSpacesB l = true ∧
    l.head? ≠ some ' ' ∧ l.getLast? ≠ some ' '))

/-- The predicate `cleanData` on a string's characters. -/
def cleanStr (s : String) : Prop := cleanData s.data

instance (s : String) : Decidable (cleanStr s) :=
  inferInstanceAs (Decidable (cleanData s.data))

/-- The join `joinSpace` at the level of character lists. -/
def joinChars : List (List Char) → List Char
  | [] => []
  | [s] => s
  | s :: rest => s ++ ' ' :: joinChars rest

/-! ## Helper lemmas about the consumer loop -/

theorem noRaise_cons {r : FeedResult} {l : List FeedResult} :
    noRaise (r :: l) ↔ r ≠ FeedResult.raised ∧ noRaise l := by
  simp [noRaise]

/-- When no fed chunk raises, the loop returns: the parts are extended by
the non-empty committed texts of exactly the first `fedCount` chunks, those
chunks are consumed from the queue, and the progress updates are the
non-empty partial hypotheses of the same prefix. -/
theorem consumeLoop_ok : ∀ (checks : List Bool) (queue : List FeedResult)
    (parts progress : List String),
    noRaise (queue.take (fedCount checks queue)) →
    consumeLoop checks queue parts progress =
      .ok (parts ++ committedTexts (queue.take (fedCount checks queue)),
           queue.drop (fedCount checks queue),
           progress ++ progressTexts (queue.take (fedCount checks queue)))
  | [], queue, parts, progress, _ => by
      simp [consumeLoop, fedCount, leadTrue, committedTexts, progressTexts]
  | false :: checks, queue, parts, progress, _ => by
      simp [consumeLoop, fedCount, leadTrue, committedTexts, progressTexts]
  | true :: checks, [], parts, progress, _ => by
      simp [consumeLoop, fedCount, committedTexts, progressTexts]
  | true :: checks, r :: rest, parts, progress, h => by
      have hmin : fedCount (true :: checks) (r :: rest) = fedCount checks rest + 1 := by
        simp [fedCount, leadTrue, Nat.succ_min_succ]
      rw [hmin] at h ⊢
      rw [List.take_succ_cons] at h ⊢
      rw [List.drop_succ_cons]
      rw [noRaise_cons] at h
      cases r with
      | raised => exact absurd rfl h.1
      | accepted t =>
          have ih := consumeLoop_ok checks rest (if t = "" then parts else parts ++ [t])
            progress h.2
          by_cases ht : t = "" <;> simp [ht] at ih <;>
            simp [consumeLoop, committedTexts, progressTexts, List.filterMap_cons, ht, ih]
      | notAccepted p =>
          have ih := consumeLoop_ok checks rest parts
            (if p = "" then progress else progress ++ [p]) h.2
          by_cases hp : p = "" <;> simp [hp] at ih <;>
            simp [consumeLoop, committedTexts, progressTexts, List.filterMap_cons, hp, ih]

/-- If some chunk within the fed range raises, the exception escapes the
loop. -/
theorem consumeLoop_raised : ∀ (checks : List Bool) (queue : List FeedResult)
    (parts progress : List String) (i : Nat),
    queue[i]? = some FeedResult.raised → i < fedCount checks queue →
    consumeLoop checks queue parts progress = .error ()
  | [], _, _, _, i, _, hlt => by
      simp [fedCount, leadTrue] at hlt
  | false :: checks, _, _, _, i, _, hlt => by
      simp [fedCount, leadTrue] at hlt
  | true :: checks, [], _, _, i, hget, _ => by
      simp at hget
  | true :: checks, r :: rest, parts, progress, i, hget, hlt => by
      have hmin : fedCount (true :: checks) (r :: rest) = fedCount checks rest + 1 := by
        simp [fedCount, leadTrue, Nat.succ_min_succ]
      rw [hmin] at hlt
      cases i with
      | zero =>
          simp at hget
          subst hget
          simp [consumeLoop]
      | succ j =>
          simp [List.getElem?_cons_succ] at hget
          have hj : j < fedCount checks rest := Nat.lt_of_succ_lt_succ hlt
          cases r with
          | raised => simp [consumeLoop]
          | accepted t =>
              simpa [consumeLoop] using
                consumeLoop_raised checks rest (if t = "" then parts else parts ++ [t])
                  progress j hget hj
          | notAccepted p =>
              simpa [consumeLoop] using
                consumeLoop_raised checks rest parts
                  (if p = "" then progress else progress ++ [p]) j hget hj

/-- A successful session, unfolded: with the device open and no decoder
exception among the fed chunks, the transcript is the space-join of the
committed texts of the fed prefix, followed by the final segment when it
is non-empty; the stream was acquired and released. -/
theorem record_ok (checks : List Bool) (queue : List FeedResult) (finalText : String)
    (h : noRaise (queue.take (fedCount checks queue))) :
    record_and_transcribe true checks queue finalText =
      { acquired := true, released := true,
        result := .ok (joinSpace (committedTexts (queue.take (fedCount checks queue)) ++
          (if finalText = "" then [] else [finalText]))) } := by
  rw [record_and_transcribe]
  rw [consumeLoop_ok checks queue [] [] h]
  by_cases hf : finalText = "" <;> simp [withStream, hf]

/-- The join `joinSpace` seen on character lists. -/
theorem joinSpace_data : ∀ parts : List String,
    (joinSpace parts).data = joinChars (parts.map String.data)
  | [] => rfl
  | [s] => by simp [joinSpace, joinChars]
  | s :: r :: t => by
      have ih := joinSpace_data (r :: t)
      simp only [joinSpace, joinChars, List.map_cons, String.data_append]
      simp only [List.map_cons] at ih
      rw [← ih, List.append_assoc]
      rfl

theorem committedTexts_ne_empty (l : List FeedResult) :
    ∀ s ∈ committedTexts l, s ≠ "" := by
  intro s hs
  rw [committedTexts, List.mem_filterMap] at hs
  obtain ⟨r, _, hr⟩ := hs
  cases r with
  | accepted t =>
      by_cases ht : t = ""
      · simp [ht] at hr
      · simp [ht] at hr
        subst hr
        exact ht
  | notAccepted p => simp at hr
  | raised => simp at hr

/-- A string is empty exactly when it holds no characters. -/
theorem string_eq_empty_iff (s : String) : s = "" ↔ s.data = [] := by
  constructor
  · intro h
    subst h
    rfl
  · intro h
    cases s with
    | mk l => cases h; rfl

/-- The Boolean consecutive-space check agrees with the `Chain'`
formulation. -/
theorem noTwoSpacesB_iff : ∀ l : List Char,
    noTwoSpacesB l = true ↔ l.Chain' (fun a b => ¬(a = ' ' ∧ b = ' '))
  | [] => by simp [noTwoSpacesB]
  | [a] => by simp [noTwoSpacesB]
  | a :: b :: rest => by
      have ih := noTwoSpacesB_iff (b :: rest)
      simp only [noTwoSpacesB, Bool.and_eq_true, Bool.not_eq_true', Bool.and_eq_false_iff,
        List.chain'_cons, ih, beq_eq_false_iff_ne, ne_eq, beq_iff_eq]
      tauto

/-- The predicate `cleanData` through the `Chain'` formulation of the no-double-space
condition. -/
theorem cleanData_iff_chain (l : List Char) :
    cleanData l ↔ (l.Chain' (fun a b => ¬(a = ' ' ∧ b = ' ')) ∧
      l.head? ≠ some ' ' ∧ l.getLast? ≠ some ' ') := by
  rw [cleanData, noTwoSpacesB_iff]

/-- Joining non-empty, clean segments yields a clean result whose first
character is the first segment's first character and whose last character
is the last character of one of the segments. -/
theorem joinChars_clean : ∀ (p : List Char) (rest : List (List Char)),
    (∀ l ∈ p :: rest, l ≠ [] ∧ cleanData l) →
    cleanData (joinChars (p :: rest)) ∧ (joinChars (p :: rest)).head? = p.head? ∧
      ∃ q, q ∈ p :: rest ∧ (joinChars (p :: rest)).getLast? = q.getLast?
  | p, [], h => ⟨(h p (by simp)).2, rfl, p, by simp, rfl⟩
  | p, r :: t, h => by
      obtain ⟨hcleanJ, hheadJ, q, hqmem, hlastJ⟩ :=
        joinChars_clean r t (fun l hl => h l (List.mem_cons_of_mem p hl))
      have hpne : p ≠ [] := (h p (by simp)).1
      have hpchain : p.Chain' (fun a b => ¬(a = ' ' ∧ b = ' ')) :=
        ((cleanData_iff_chain p).mp (h p (by simp)).2).1
      have hphead : p.head? ≠ some ' ' := (h p (by simp)).2.2.1
      have hplast : p.getLast? ≠ some ' ' := (h p (by simp)).2.2.2
      have hrne : r ≠ [] := (h r (by simp)).1
      have hJne : joinChars (r :: t) ≠ [] := by
        intro hnil
        rw [hnil] at hheadJ
        cases r with
        | nil => exact hrne rfl
        | cons a l => simp at hheadJ
      obtain ⟨hJchain, hJhead, hJlast⟩ := (cleanData_iff_chain _).mp hcleanJ
      have hqlast : q.getLast? ≠ some ' ' := (h q (List.mem_cons_of_mem p hqmem)).2.2.2
      have hstep : joinChars (p :: r :: t) = p ++ ' ' :: joinChars (r :: t) := rfl
      rw [hstep]
      have hlast2 : (p ++ ' ' :: joinChars (r :: t)).getLast? = q.getLast? := by
        rw [List.getLast?_append_of_ne_nil p (by simp)]
        rw [show (' ' :: joinChars (r :: t)) = [' '] ++ joinChars (r :: t) from rfl]
        rw [List.getLast?_append_of_ne_nil [' '] hJne]
        exact hlastJ
      refine ⟨(cleanData_iff_chain _).mpr ⟨?_, ?_, ?_⟩, ?_, q,
        List.mem_cons_of_mem p hqmem, hlast2⟩
      · rw [List.chain'_append]
        refine ⟨hpchain, ?_, ?_⟩
        · rw [List.chain'_cons']
          refine ⟨?_, hJchain⟩
          intro y hy hcontra
          refine hJhead ?_
          rw [← hcontra.2]
          exact Option.mem_def.mp hy
        · intro x hx y hy hcontra
          refine hplast ?_
          rw [← hcontra.1]
          exact Option.mem_def.mp hx
      · rw [List.head?_append_of_ne_nil p hpne]
        exact hphead
      · rw [hlast2]
        exact hqlast
      · exact List.head?_append_of_ne_nil p hpne

/-- The left fold of `pymaxStep` over `b :: xs` returns an element of the
list whose score is an upper bound of all scores, and every element before
it has a strictly smaller score. -/
theorem foldl_pymaxStep_spec : ∀ (xs : List EmotionScore) (b : EmotionScore),
    ∃ i : Nat, (b :: xs)[i]? = some (xs.foldl pymaxStep b) ∧
      (∀ (j : Nat) (y : EmotionScore), (b :: xs)[j]? = some y →
        y.score ≤ (xs.foldl pymaxStep b).score) ∧
      (∀ (j : Nat) (y : EmotionScore), j < i → (b :: xs)[j]? = some y →
        y.score < (xs.foldl pymaxStep b).score)
  | [], b => by
      refine ⟨0, rfl, ?_, ?_⟩
      · intro j y hj
        cases j with
        | zero =>
            simp at hj
            subst hj
            simp
        | succ k => simp at hj
      · intro j y hj _
        omega
  | x :: xs, b => by
      rw [List.foldl_cons]
      rcases foldl_pymaxStep_spec xs (pymaxStep b x) with ⟨i2, hi2, hub, hstrict⟩
      by_cases hbx : b.score < x.score
      · have hs : pymaxStep b x = x := if_pos hbx
        rw [hs] at hi2 hub hstrict ⊢
        refine ⟨i2 + 1, by simpa using hi2, ?_, ?_⟩
        · intro j y hj
          cases j with
          | zero =>
              simp at hj
              subst hj
              exact le_trans (le_of_lt hbx) (hub 0 x (by simp))
          | succ k => exact hub k y (by simpa using hj)
        · intro j y hj hget
          cases j with
          | zero =>
              simp at hget
              subst hget
              exact lt_of_lt_of_le hbx (hub 0 x (by simp))
          | succ k =>
              exact hstrict k y (Nat.lt_of_succ_lt_succ hj) (by simpa using hget)
      · have hs : pymaxStep b x = b := if_neg hbx
        have hxb : x.score ≤ b.score := le_of_not_lt hbx
        rw [hs] at hi2 hub hstrict ⊢
        cases i2 with
        | zero =>
            refine ⟨0, by simpa using hi2, ?_, ?_⟩
            · intro j y hj
              cases j with
              | zero =>
                  simp at hj
                  subst hj
                  exact hub 0 b (by simp)
              | succ k =>
                  cases k with
                  | zero =>
                      simp at hj
                      subst hj
                      exact le_trans hxb (hub 0 b (by simp))
                  | succ m => exact hub (m + 1) y (by simpa using hj)
            · intro j y hj _
              omega
        | succ k =>
            refine ⟨k + 2, by simpa using hi2, ?_, ?_⟩
            · intro j y hj
              cases j with
              | zero =>
                  simp at hj
                  subst hj
                  exact hub 0 b (by simp)
              | succ m =>
                  cases m with
                  | zero =>
                      simp at hj
                      subst hj
                      exact le_trans hxb (hub 0 b (by simp))
                  | succ n => exact hub (n + 1) y (by simpa using hj)
            · intro j y hj hget
              cases j with
              | zero =>
                  simp at hget
                  subst hget
                  exact hstrict 0 b (Nat.succ_pos k) (by simp)
              | succ m =>
                  cases m with
                  | zero =>
                      simp at hget
                      subst hget
                      exact lt_of_le_of_lt hxb (hstrict 0 b (Nat.succ_pos k) (by simp))
                  | succ n =>
                      exact hstrict (n + 1) y (by omega) (by simpa using hget)

theorem leadTrue_replicate (k : Nat) (tail : List Bool) :
    leadTrue (List.replicate k true ++ false :: tail) = k := by
  induction k with
  | zero => simp [leadTrue]
  | succ n ih => simp [List.replicate_succ, leadTrue, ih]

/-! ## Claims -/

/-- C1: for a session whose device opens and whose fed chunks raise no
decoder error, the transcript returned by `record_and_transcribe` is the
space-joined concatenation of the non-empty committed segments of the fed
prefix, in feed order, followed by the closing segment from finalize when
it is non-empty. -/
theorem c1_transcript_is_joined_committed (checks : List Bool)
    (queue : List FeedResult) (finalText : String)
    (h : noRaise (queue.take (fedCount checks queue))) :
    (record_and_transcribe true checks queue finalText).result =
      .ok (joinSpace (committedTexts (queue.take (fedCount checks queue)) ++
        (if finalText = "" then [] else [finalText]))) := by
  rw [record_ok checks queue finalText h]

/-- C1 witness: committed segments "hello" then "world" with an empty
finalize yield the transcript "hello world". -/
theorem c1_transcript_is_joined_committed_witness :
    (record_and_transcribe true [true, true, false]
      [FeedResult.accepted "hello", FeedResult.accepted "world"] "").result =
      .ok "hello world" := by
  have h := c1_transcript_is_joined_committed [true, true, false]
    [FeedResult.accepted "hello", FeedResult.accepted "world"] "" (by decide)
  exact h.trans (by decide)

/-- C2: when the fed chunks produce no committed segment (only empty or
partial events) and no decoder error, the transcript equals exactly the
text returned by finalize, with no earlier content. -/
theorem c2_transcript_is_finalize_text (checks : List Bool)
    (queue : List FeedResult) (finalText : String)
    (hraise : noRaise (queue.take (fedCount checks queue)))
    (hnone : committedTexts (queue.take (fedCount checks queue)) = []) :
    (record_and_transcribe true checks queue finalText).result = .ok finalText := by
  rw [record_ok checks queue finalText hraise, hnone]
  by_cases hf : finalText = "" <;> simp [joinSpace, hf]

/-- C2 witness: two chunks yielding a partial hypothesis and an empty
committed result, finalize returning "hey": the transcript is "hey". -/
theorem c2_transcript_is_finalize_text_witness :
    (record_and_transcribe true [true, true, false]
      [FeedResult.notAccepted "um", FeedResult.accepted ""] "hey").result =
      .ok "hey" :=
  c2_transcript_is_finalize_text [true, true, false]
    [FeedResult.notAccepted "um", FeedResult.accepted ""] "hey" (by decide) (by decide)

/-- C8: when the deadline check fails for the first time at iteration `k`
(the first `k` checks pass) and at least `k` chunks are queued, the
consumer feeds exactly the first `k` chunks: everything still queued at
the deadline is returned undisturbed (discarded), never dequeued or fed. -/
theorem c8_deadline_stops_feeding (k : Nat) (tail : List Bool)
    (queue : List FeedResult) (hlen : k ≤ queue.length)
    (h : noRaise (queue.take k)) :
    consumeLoop (List.replicate k true ++ false :: tail) queue [] [] =
      .ok (committedTexts (queue.take k), queue.drop k, progressTexts (queue.take k)) := by
  have hfed : fedCount (List.replicate k true ++ false :: tail) queue = k := by
    rw [fedCount, leadTrue_replicate]
    exact Nat.min_eq_left hlen
  have := consumeLoop_ok (List.replicate k true ++ false :: tail) queue [] []
    (by rw [hfed]; exact h)
  rw [hfed] at this
  simpa using this

/-- C8 witness: one passing check then the deadline; of three queued
chunks only the first is fed, the other two are left queued. -/
theorem c8_deadline_stops_feeding_witness :
    consumeLoop [true, false] [FeedResult.accepted "a", FeedResult.notAccepted "b",
      FeedResult.raised] [] [] =
      .ok (["a"], [FeedResult.notAccepted "b", FeedResult.raised], []) := by
  have h := c8_deadline_stops_feeding 1 []
    [FeedResult.accepted "a", FeedResult.notAccepted "b", FeedResult.raised]
    (by decide) (by decide)
  exact h.trans (by decide)

/-- C9: whenever the session acquired the microphone stream, it released
it, on the normal path and on the exception path alike. -/
theorem c9_mic_released (deviceOpens : Bool) (checks : List Bool)
    (queue : List FeedResult) (finalText : String)
    (h : (record_and_transcribe deviceOpens checks queue finalText).acquired = true) :
    (record_and_transcribe deviceOpens checks queue finalText).released = true := by
  cases deviceOpens with
  | false => simp [record_and_transcribe] at h
  | true =>
      rw [record_and_transcribe]
      cases hc : consumeLoop checks queue [] [] with
      | ok v => simp [withStream, hc]
      | error e => simp [withStream, hc]

/-- C9 witness: a session whose second fed chunk raises still released the
stream. -/
theorem c9_mic_released_witness :
    (record_and_transcribe true [true, true, true]
      [FeedResult.accepted "hi", FeedResult.raised] "").released = true :=
  c9_mic_released true [true, true, true]
    [FeedResult.accepted "hi", FeedResult.raised] "" (by decide)

/-- C5 counterexample: the first chunk commits "hello" and the second
makes `feed` raise; `record_and_transcribe` propagates the exception
instead of proceeding to finalize — no transcript is produced, so the
committed segment "hello" is not preserved in any final transcript. -/
theorem c5_counterexample :
    record_and_transcribe true [true, true, true]
      [FeedResult.accepted "hello", FeedResult.raised] "tail" =
      { acquired := true, released := true, result := .error .decoderError } := by
  decide

/-- C5 amended: if a fed chunk raises a decoder-internal error during
recording, the exception propagates out of `record_and_transcribe`: the
session ends with the decoder error instead of a transcript (committed
segments are lost), though the microphone stream is still released. -/
theorem c5_feed_error_propagates (checks : List Bool) (queue : List FeedResult)
    (finalText : String) (i : Nat)
    (hget : queue[i]? = some FeedResult.raised) (hlt : i < fedCount checks queue) :
    record_and_transcribe true checks queue finalText =
      { acquired := true, released := true, result := .error .decoderError } := by
  rw [record_and_transcribe]
  rw [consumeLoop_raised checks queue [] [] i hget hlt]
  simp [withStream]

/-- C5 amended witness: concrete session whose second chunk raises. -/
theorem c5_feed_error_propagates_witness :
    record_and_transcribe true [true, true, true]
      [FeedResult.accepted "hi", FeedResult.raised] "x" =
      { acquired := true, released := true, result := .error .decoderError } :=
  c5_feed_error_propagates [true, true, true]
    [FeedResult.accepted "hi", FeedResult.raised] "x" 1 (by decide) (by decide)

/-- C3: the emotion classifier runs exactly when the session produced a
non-empty transcript; on an empty transcript the handler short-circuits to
`noAction` — no classification, presentation update or recommendation. -/
theorem c3_classifier_iff_nonempty (s : SessionResult)
    (clf : String → List EmotionScore) :
    (classifierInvoked (handleRecord s clf) = true ↔
      ∃ t, s.result = Except.ok t ∧ t ≠ "") ∧
    (s.result = Except.ok "" → handleRecord s clf = HandlerOutcome.noAction) := by
  rcases s with ⟨acq, rel, res⟩
  cases res with
  | error e => simp [handleRecord, classifierInvoked]
  | ok t =>
      by_cases ht : t = ""
      · subst ht
        simp [handleRecord, classifierInvoked]
      · constructor
        · constructor
          · intro _
            exact ⟨t, rfl, ht⟩
          · intro _
            rw [handleRecord]
            simp only [ht, if_false]
            cases hp : pymax (clf t) <;> simp [classifierInvoked]
        · intro hc
          simp at hc
          exact absurd hc ht

/-- C3 witness: a session that returned the empty transcript leads to no
action and no classifier call. -/
theorem c3_classifier_iff_nonempty_witness :
    handleRecord { acquired := true, released := true, result := Except.ok "" }
      (fun _ => [{ label := "joy", score := 1 }]) = HandlerOutcome.noAction := by
  exact (c3_classifier_iff_nonempty
    { acquired := true, released := true, result := Except.ok "" }
    (fun _ => [{ label := "joy", score := 1 }])).2 rfl

/-- C4: on a non-empty score list, `max(scores, key=score)` returns an
entry of the list whose score bounds every score in the list, and every
entry occurring before it has a strictly smaller score (ties keep the
first occurrence). -/
theorem c4_pymax_first_maximum (scores : List EmotionScore) (h : scores ≠ []) :
    ∃ (b : EmotionScore) (i : Nat), pymax scores = some b ∧ scores[i]? = some b ∧
      (∀ (j : Nat) (y : EmotionScore), scores[j]? = some y → y.score ≤ b.score) ∧
      (∀ (j : Nat) (y : EmotionScore), j < i → scores[j]? = some y →
        y.score < b.score) := by
  cases scores with
  | nil => exact absurd rfl h
  | cons x xs =>
      rcases foldl_pymaxStep_spec xs x with ⟨i, hi, hub, hstrict⟩
      exact ⟨xs.foldl pymaxStep x, i, rfl, hi, hub, hstrict⟩

/-- C4 witness: for scores joy 0.2, sadness 0.7, anger 0.1 the selected
entry is the sadness one, and the theorem applies to this list. -/
theorem c4_pymax_first_maximum_witness :
    pymax [{ label := "joy", score := 2/10 }, { label := "sadness", score := 7/10 },
      { label := "anger", score := 1/10 }] =
      some { label := "sadness", score := 7/10 } ∧
    (∃ (b : EmotionScore) (i : Nat),
      pymax [{ label := "joy", score := 2/10 }, { label := "sadness", score := 7/10 },
        { label := "anger", score := 1/10 }] = some b ∧
      [{ label := "joy", score := 2/10 }, { label := "sadness", score := 7/10 },
        { label := "anger", score := 1/10 }][i]? = some b ∧
      (∀ (j : Nat) (y : EmotionScore),
        [{ label := "joy", score := 2/10 }, { label := "sadness", score := 7/10 },
          { label := "anger", score := 1/10 }][j]? = some y → y.score ≤ b.score) ∧
      (∀ (j : Nat) (y : EmotionScore), j < i →
        [{ label := "joy", score := 2/10 }, { label := "sadness", score := 7/10 },
          { label := "anger", score := 1/10 }][j]? = some y → y.score < b.score)) :=
  ⟨by norm_num [pymax, pymaxStep], c4_pymax_first_maximum _ (by simp)⟩

/-- C6: when the audio device fails to open, the session fails with
`deviceUnavailable` before acquiring the stream or feeding anything, and
the handler surfaces that error without classifying or displaying. -/
theorem c6_device_unavailable (checks : List Bool) (queue : List FeedResult)
    (finalText : String) (clf : String → List EmotionScore) :
    record_and_transcribe false checks queue finalText =
      { acquired := false, released := false, result := .error .deviceUnavailable } ∧
    handleRecord (record_and_transcribe false checks queue finalText) clf =
      .sessionError .deviceUnavailable ∧
    classifierInvoked
      (handleRecord (record_and_transcribe false checks queue finalText) clf) = false := by
  refine ⟨rfl, rfl, rfl⟩

/-- C7: the emotion-to-presentation mapping returns each of the seven
labels' records, and the neutral record for every string outside the
closed label set, without failing. -/
theorem c7_character_map_total :
    (characterFor "joy" = joyChar ∧ characterFor "sadness" = sadnessChar ∧
     characterFor "anger" = angerChar ∧ characterFor "fear" = fearChar ∧
     characterFor "surprise" = surpriseChar ∧ characterFor "disgust" = disgustChar ∧
     characterFor "neutral" = neutralChar) ∧
    ∀ mood : String,
      mood ∉ ["joy", "sadness", "anger", "fear", "surprise", "disgust", "neutral"] →
      characterFor mood = neutralChar := by
  constructor
  · exact ⟨rfl, rfl, rfl, rfl, rfl, rfl, rfl⟩
  · intro mood hm
    simp [List.mem_cons] at hm
    obtain ⟨h1, h2, h3, h4, h5, h6, h7⟩ := hm
    simp [characterFor, EMOTION_TO_CHARACTER, lookupChar, h1, h2, h3, h4, h5, h6, h7]

/-- C7 witness: a known label maps to its record and an unknown label
falls back to the neutral record. -/
theorem c7_character_map_total_witness :
    characterFor "joy" = joyChar ∧ characterFor "confused" = neutralChar :=
  ⟨c7_character_map_total.1.1, c7_character_map_total.2 "confused" (by decide)⟩

/-- Joining segments that are non-empty and individually clean gives a
clean string, empty exactly when there are no segments. -/
theorem joinSpace_clean_of_all (parts : List String)
    (h : ∀ s ∈ parts, s ≠ "" ∧ cleanStr s) :
    cleanStr (joinSpace parts) ∧ (joinSpace parts = "" ↔ parts = []) := by
  cases parts with
  | nil =>
      constructor
      · simp [cleanStr, cleanData, joinSpace, noTwoSpacesB]
      · simp [joinSpace]
  | cons p rest =>
      have hmap : ∀ l ∈ (p :: rest).map String.data, l ≠ [] ∧ cleanData l := by
        intro l hl
        rw [List.mem_map] at hl
        obtain ⟨s, hs, rfl⟩ := hl
        refine ⟨?_, (h s hs).2⟩
        intro hnil
        exact (h s hs).1 ((string_eq_empty_iff s).mpr hnil)
      have hj := joinChars_clean p.data (rest.map String.data) (by simpa using hmap)
      have hpne : p.data ≠ [] := by
        intro hnil
        exact (h p (by simp)).1 ((string_eq_empty_iff p).mpr hnil)
      have hne2 : joinSpace (p :: rest) ≠ "" := by
        intro hempty
        have hdata := (string_eq_empty_iff _).mp hempty
        rw [joinSpace_data, List.map_cons] at hdata
        have hhead := hj.2.1
        rw [hdata] at hhead
        cases hd : p.data with
        | nil => exact hpne hd
        | cons a l =>
            rw [hd] at hhead
            simp at hhead
      constructor
      · rw [cleanStr, joinSpace_data]
        simpa using hj.1
      · constructor
        · intro hempty
          exact absurd hempty hne2
        · intro hc
          exact absurd hc (List.cons_ne_nil p rest)

/-- C10 counterexample: the recognizer commits the single-space segment
`" "` (non-empty, so the code appends it); the transcript is `" "`, which
starts (and ends) with a space — the claimed consequence fails. -/
theorem c10_counterexample :
    (record_and_transcribe true [true, false] [FeedResult.accepted " "] "").result =
      .ok " " ∧ (" " : String).data.head? = some ' ' := by
  exact ⟨by decide, rfl⟩

/-- C10 amended: every segment the loop appends (committed or closing) is
a non-empty string, and the transcript is empty exactly when no non-empty
text was recognized; if, in addition, each appended segment itself has no
consecutive spaces and neither starts nor ends with one, then the joined
transcript has no consecutive spaces and neither starts nor ends with a
space. -/
theorem c10_segments_nonempty_clean_join (checks : List Bool)
    (queue : List FeedResult) (finalText : String)
    (hraise : noRaise (queue.take (fedCount checks queue)))
    (hclean : ∀ s ∈ committedTexts (queue.take (fedCount checks queue)) ++
        (if finalText = "" then [] else [finalText]), cleanStr s) :
    (∀ s ∈ committedTexts (queue.take (fedCount checks queue)) ++
        (if finalText = "" then [] else [finalText]), s ≠ "") ∧
    (record_and_transcribe true checks queue finalText).result =
      .ok (joinSpace (committedTexts (queue.take (fedCount checks queue)) ++
        (if finalText = "" then [] else [finalText]))) ∧
    cleanStr (joinSpace (committedTexts (queue.take (fedCount checks queue)) ++
        (if finalText = "" then [] else [finalText]))) ∧
    (joinSpace (committedTexts (queue.take (fedCount checks queue)) ++
        (if finalText = "" then [] else [finalText])) = "" ↔
      committedTexts (queue.take (fedCount checks queue)) = [] ∧ finalText = "") := by
  have hne : ∀ s ∈ committedTexts (queue.take (fedCount checks queue)) ++
      (if finalText = "" then [] else [finalText]), s ≠ "" := by
    intro s hs
    rw [List.mem_append] at hs
    cases hs with
    | inl hmem => exact committedTexts_ne_empty _ s hmem
    | inr hmem =>
        by_cases hf : finalText = ""
        · rw [if_pos hf] at hmem
          simp at hmem
        · rw [if_neg hf] at hmem
          simp at hmem
          rw [hmem]
          exact hf
  have hjoin := joinSpace_clean_of_all
    (committedTexts (queue.take (fedCount checks queue)) ++
      (if finalText = "" then [] else [finalText]))
    (fun s hs => ⟨hne s hs, hclean s hs⟩)
  have hsplit : committedTexts (queue.take (fedCount checks queue)) ++
      (if finalText = "" then [] else [finalText]) = [] ↔
      committedTexts (queue.take (fedCount checks queue)) = [] ∧ finalText = "" := by
    by_cases hf : finalText = "" <;> simp [hf]
  refine ⟨hne, ?_, hjoin.1, hjoin.2.trans hsplit⟩
  rw [record_ok checks queue finalText hraise]

/-- C10 amended witness: the hello/world session's transcript is clean and
non-empty. -/
theorem c10_segments_nonempty_clean_join_witness :
    cleanStr (joinSpace (committedTexts
      (List.take (fedCount [true, true, false]
        [FeedResult.accepted "hello", FeedResult.accepted "world"])
        [FeedResult.accepted "hello", FeedResult.accepted "world"]) ++
      (if ("" : String) = "" then [] else [("" : String)]))) ∧
    (record_and_transcribe true [true, true, false]
      [FeedResult.accepted "hello", FeedResult.accepted "world"] "").result =
      .ok "hello world" := by
  have h := c10_segments_nonempty_clean_join [true, true, false]
    [FeedResult.accepted "hello", FeedResult.accepted "world"] "" (by decide) (by decide)
  exact ⟨h.2.2.1, h.2.1.trans (by decide)⟩
